import Mathlib

/-!
# Verification of font-kit's matching engine and scale mapper

Shallow embedding of `src/source.rs` (the `Source` trait's default matching
algorithms) and `src/sources/core_text.rs` (the piecewise-linear scale
mapper), with theorems settling the specification's claims.

Numeric code operating on `f32` is embedded over `ℚ` (exact arithmetic);
fallible indexing is embedded with `Option` (`none` models an out-of-bounds
panic), and Rust `Result` with `Except`.
-/

namespace FontKit

/- ## Scale mapper (src/sources/core_text.rs) -/

/-- Modelled from the spec: `utils::lerp` (utils.rs is not part of the shown
source). The spec gives the interpolation formula
`result = table[lo] + t * (table[hi] - table[lo])`. -/
def lerp (a b t : ℚ) : ℚ := a + t * (b - a)

/-- The table `FONT_WEIGHT_MAPPING` from src/sources/core_text.rs lines 31-32:
`[-0.7, -0.5, -0.23, 0.0, 0.2, 0.3, 0.4, 0.6, 0.8]`. -/
def FONT_WEIGHT_MAPPING : List ℚ :=
  [-(7/10), -(1/2), -(23/100), 0, 1/5, 3/10, 2/5, 3/5, 4/5]

/-- Model of Rust's `slice::binary_search_by` with the comparator
`value.partial_cmp(&query).unwrap_or(Less)` (std library code, modelled from
its documented contract, which is deterministic on the sorted slices all
claims assume): `Except.ok i` when the element at `i` equals the query,
otherwise `Except.error i` with `i` the insertion point — the first index
whose element is `≥` the query, or the length when no such index exists. -/
def binary_search (query_value : ℚ) : List ℚ → Except Nat Nat
  | [] => .error 0
  | v :: rest =>
    if v < query_value then
      match binary_search query_value rest with
      | .ok i => .ok (i + 1)
      | .error i => .error (i + 1)
    else if v = query_value then .ok 0
    else .error 0

/-- Embedding of `piecewise_linear_lookup` from src/sources/core_text.rs lines 104-108.
`f32::floor(index) as usize` / `f32::ceil(index) as usize` are modelled by
`Int.toNat ∘ Int.floor` / `Int.toNat ∘ Int.ceil` (the saturating float→int
cast), and the slice indexing `mapping[i]` by guarded `List` indexing, with
`none` for the out-of-bounds panic. -/
def piecewise_linear_lookup (index : ℚ) (mapping : List ℚ) : Option ℚ :=
  match mapping[(⌊index⌋).toNat]?, mapping[(⌈index⌉).toNat]? with
  | some lower_value, some upper_value =>
    some (lerp lower_value upper_value (Int.fract index))
  | _, _ => none

/-- Embedding of `piecewise_linear_find_index` from src/sources/core_text.rs lines
110-124. The slice indexing `mapping[upper_index]` / `mapping[lower_index]`
is guarded; `none` models the out-of-bounds panic. -/
def piecewise_linear_find_index (query_value : ℚ) (mapping : List ℚ) :
    Option ℚ :=
  match binary_search query_value mapping with
  | .ok index => some (index : ℚ)
  | .error upper_index =>
    if upper_index = 0 then some (upper_index : ℚ)
    else
      match mapping[upper_index]?, mapping[upper_index - 1]? with
      | some upper_value, some lower_value =>
        some (((upper_index - 1 : ℕ) : ℚ) +
          (query_value - lower_value) / (upper_value - lower_value))
      | _, _ => none

/-- Embedding of `css_to_core_text_font_weight` from src/sources/core_text.rs lines
126-129: `piecewise_linear_lookup(max(100, w) / 100 - 1, FONT_WEIGHT_MAPPING)`. -/
def css_to_core_text_font_weight (css_weight : ℚ) : Option ℚ :=
  piecewise_linear_lookup (max 100 css_weight / 100 - 1) FONT_WEIGHT_MAPPING

/- ## Matching engine (src/source.rs) -/

/-- Modelled from the spec: the `SelectionError` taxonomy (error.rs is not
part of the shown source) — `NotFound` and `IoFailure` (the catalog access
failure the source calls `CannotAccessSource`-style). -/
inductive SelectionError : Type
  | NotFound : SelectionError
  | IoFailure : SelectionError
deriving DecidableEq, Repr

/-- The `FamilyName` enum (family_name.rs is not shown; the variants are those matched
in `select_family_by_generic_name`, src/source.rs lines 72-79, and §3 of the
spec). -/
inductive FamilyName : Type
  | Title : String → FamilyName
  | Serif : FamilyName
  | SansSerif : FamilyName
  | Monospace : FamilyName
  | Cursive : FamilyName
  | Fantasy : FamilyName
deriving DecidableEq, Repr

/-- The `FamilyHandle` type (family_handle.rs is not shown): an ordered sequence of
opaque font-resource identifiers (`Handle`s), §3 of the spec. The identifier
type `H` is kept abstract. -/
structure FamilyHandle (H : Type) : Type where
  fonts : List H
deriving DecidableEq, Repr

/-- Modelled from the spec: a loaded `Font` (font.rs is not shown) exposes
`family_name()`, `properties()` and `postscript_name()`, the only accessors
the matching engine uses. The properties type `P` is kept abstract. -/
structure Font (P : Type) : Type where
  family_name : String
  properties : P
  postscript_name : String
deriving DecidableEq, Repr

/-- The `matching::Description` struct (matching.rs is not shown): family name plus
properties, the spec's `Descriptor`. -/
structure Description (P : Type) : Type where
  family_name : String
  properties : P
deriving DecidableEq, Repr

/-- The capability contract the `Source` trait's default methods consume:
the two required methods of the trait (src/source.rs lines 42-45), plus the
two external collaborators the defaults call — `Font::from_handle`
(`none` models a load failure, the `Err` of its Rust `Result`) and the
property-matching policy `matching::find_best_match`
(`best_index(descriptors, desired) -> index | NotFound` in the spec). -/
structure Source (H P : Type) : Type where
  all_families : Except SelectionError (List String)
  select_family_by_name : String → Except SelectionError (FamilyHandle H)
  from_handle : H → Option (Font P)
  find_best_match : List (Description P) → P → Except SelectionError Nat

def DEFAULT_FONT_FAMILY_SERIF : String := "Times New Roman"

def DEFAULT_FONT_FAMILY_SANS_SERIF : String := "Arial"

def DEFAULT_FONT_FAMILY_MONOSPACE : String := "Courier New"

def DEFAULT_FONT_FAMILY_CURSIVE : String := "Comic Sans MS"

def DEFAULT_FONT_FAMILY_FANTASY : String := "Papyrus"

/-- Embedding of `Source::select_family_by_generic_name`, src/source.rs lines 70-80. -/
def select_family_by_generic_name (s : Source H P) :
    FamilyName → Except SelectionError (FamilyHandle H)
  | .Title title => s.select_family_by_name title
  | .Serif => s.select_family_by_name DEFAULT_FONT_FAMILY_SERIF
  | .SansSerif => s.select_family_by_name DEFAULT_FONT_FAMILY_SANS_SERIF
  | .Monospace => s.select_family_by_name DEFAULT_FONT_FAMILY_MONOSPACE
  | .Cursive => s.select_family_by_name DEFAULT_FONT_FAMILY_CURSIVE
  | .Fantasy => s.select_family_by_name DEFAULT_FONT_FAMILY_FANTASY

/-- The loop body of `Source::select_descriptions_in_family`
(src/source.rs lines 101-109): for each handle,
`Font::from_handle(font_handle).unwrap()` — the `.unwrap()` panics when
loading fails, modelled as `none`. -/
def describe_fonts (s : Source H P) : List H → Option (List (Description P))
  | [] => some []
  | font_handle :: rest =>
    match s.from_handle font_handle with
    | none => none
    | some font =>
      match describe_fonts s rest with
      | none => none
      | some fields =>
        some ({ family_name := font.family_name,
                properties := font.properties } :: fields)

/-- Embedding of `Source::select_descriptions_in_family`, src/source.rs lines 99-111.
The outer `Option` is the panic monad (`none` = the `.unwrap()` panic); the
function itself only ever produces `Ok(fields)`. -/
def select_descriptions_in_family (s : Source H P) (family : FamilyHandle H) :
    Option (Except SelectionError (List (Description P))) :=
  (describe_fonts s family.fonts).map Except.ok

/-- Embedding of `Source::select_best_match`, src/source.rs lines 85-96: first-match-wins
iteration over the preference list; `if let Ok(family_handle) = …` skips any
resolution error; `try!` propagates an error from
`select_descriptions_in_family`; `if let Ok(index) = find_best_match…` skips
a policy failure; `family_handle.fonts[index]` panics out of bounds
(`none`). -/
def select_best_match (s : Source H P) (properties : P) :
    List FamilyName → Option (Except SelectionError H)
  | [] => some (.error .NotFound)
  | family_name :: rest =>
    match select_family_by_generic_name s family_name with
    | .error _ => select_best_match s properties rest
    | .ok family_handle =>
      match select_descriptions_in_family s family_handle with
      | none => none
      | some (.error e) => some (.error e)
      | some (.ok candidates) =>
        match s.find_best_match candidates properties with
        | .error _ => select_best_match s properties rest
        | .ok index =>
          match family_handle.fonts[index]? with
          | none => none
          | some handle => some (.ok handle)

/-- Modelled from the spec: `Family::<Font>::from_handle` (family.rs is not
shown) loads a `Font` for every identifier of the family, in order, failing
when any single load fails (`if let Ok(family) = …` in
`select_by_postscript_name` skips such families). -/
def Family.from_handle (s : Source H P) (family : FamilyHandle H) :
    Option (List (Font P)) :=
  family.fonts.mapM s.from_handle

/-- The inner loop of `Source::select_by_postscript_name` (src/source.rs
lines 56-60): first handle of the zipped (handle, font) pairs whose font's
PostScript name equals the query. -/
def find_in_family (pairs : List (H × Font P)) (postscript_name : String) :
    Option H :=
  (pairs.find? (fun p => p.2.postscript_name == postscript_name)).map Prod.fst

/-- The family loop of `Source::select_by_postscript_name` (src/source.rs
lines 53-64): families whose resolution or loading fails are skipped; the
first matching resource is returned; exhaustion gives `NotFound`. -/
def search_families (s : Source H P) (postscript_name : String) :
    List String → Except SelectionError H
  | [] => .error .NotFound
  | family_name :: rest =>
    match s.select_family_by_name family_name with
    | .error _ => search_families s postscript_name rest
    | .ok family_handle =>
      match Family.from_handle s family_handle with
      | none => search_families s postscript_name rest
      | some fonts =>
        match find_in_family (family_handle.fonts.zip fonts) postscript_name with
        | some handle => .ok handle
        | none => search_families s postscript_name rest

/-- Embedding of `Source::select_by_postscript_name`, src/source.rs lines 51-65:
`try!(self.all_families())` then the brute-force family loop. -/
def select_by_postscript_name (s : Source H P) (postscript_name : String) :
    Except SelectionError H :=
  match s.all_families with
  | .error e => .error e
  | .ok families => search_families s postscript_name families

/-- Declarative candidate list used to state the brute-force search's
specification: for each family name in order, the (handle, font) pairs of
the family when it resolves and fully loads, and nothing when it fails. -/
def candidate_pairs (s : Source H P) (families : List String) :
    List (H × Font P) :=
  families.flatMap (fun name =>
    match s.select_family_by_name name with
    | .error _ => []
    | .ok family_handle =>
      match Family.from_handle s family_handle with
      | none => []
      | some fonts => family_handle.fonts.zip fonts)

/-- A concrete two-family catalog for witnesses and counterexamples:
resolving family "A" fails with an I/O failure, family "B" resolves to the
single handle `7` whose font carries PostScript name "B-Reg", and the
property-matching policy picks index 0 whenever any candidate exists. -/
def srcW : Source Nat Unit where
  all_families := .ok ["A", "B"]
  select_family_by_name := fun name =>
    if name = "A" then .error .IoFailure
    else if name = "B" then .ok ⟨[7]⟩
    else .error .NotFound
  from_handle := fun h =>
    if h = 7 then some ⟨"B", (), "B-Reg"⟩ else none
  find_best_match := fun candidates _ =>
    if candidates.length = 0 then .error .NotFound else .ok 0

/-- A concrete catalog whose font loading always fails, exhibiting the
`.unwrap()` panic in `select_descriptions_in_family`. -/
def srcF : Source Nat Unit where
  all_families := .ok []
  select_family_by_name := fun _ => .error .NotFound
  from_handle := fun _ => none
  find_best_match := fun _ _ => .error .NotFound

/- ## Lemmas about the scale mapper -/

theorem sorted_getElem_lt {T : List ℚ} (hT : T.Pairwise (· < ·)) {i j : ℕ}
    (hi : i < T.length) (hj : j < T.length) (hij : i < j) : T[i] < T[j] :=
  List.pairwise_iff_getElem.mp hT i j hi hj hij

theorem binary_search_exact (T : List ℚ) (hT : T.Pairwise (· < ·)) (q : ℚ)
    (i : ℕ) (hi : i < T.length) (hq : T[i] = q) :
    binary_search q T = .ok i := by
  induction T generalizing i with
  | nil => simp at hi
  | cons v rest ih =>
    rcases List.pairwise_cons.mp hT with ⟨hv, hrest⟩
    cases i with
    | zero =>
      simp only [List.getElem_cons_zero] at hq
      subst hq
      simp [binary_search, lt_irrefl]
    | succ i =>
      have hi2 : i < rest.length := by simpa using hi
      simp only [List.getElem_cons_succ] at hq
      have hvq : v < q := by
        have := hv rest[i] (List.getElem_mem hi2)
        rw [hq] at this
        exact this
      have := ih hrest i hi2 hq
      simp only [binary_search, if_pos hvq, this]

theorem binary_search_insert (T : List ℚ) (q : ℚ) (u : ℕ) (hu : u ≤ T.length)
    (hlow : ∀ (j : ℕ) (hj : j < T.length), j < u → T[j] < q)
    (hhigh : ∀ hu2 : u < T.length, q < T[u]) :
    binary_search q T = .error u := by
  induction T generalizing u with
  | nil =>
    have : u = 0 := Nat.le_zero.mp (by simpa using hu)
    subst this
    rfl
  | cons v rest ih =>
    cases u with
    | zero =>
      have hqv : q < v := hhigh (by simp)
      simp [binary_search, not_lt.mpr (le_of_lt hqv), ne_of_gt hqv]
    | succ u =>
      have hvq : v < q := hlow 0 (by simp) (Nat.succ_pos u)
      have hrec : binary_search q rest = .error u := by
        refine ih u (by simpa using hu) ?_ ?_
        · intro j hj hju
          have := hlow (j + 1) (by simpa using hj) (by omega)
          simpa using this
        · intro hu2
          have := hhigh (by simpa using hu2)
          simpa using this
      simp only [binary_search, if_pos hvq, hrec]

theorem find_index_exact (T : List ℚ) (hT : T.Pairwise (· < ·)) (q : ℚ)
    (i : ℕ) (hi : i < T.length) (hq : T[i] = q) :
    piecewise_linear_find_index q T = some (i : ℚ) := by
  rw [piecewise_linear_find_index, binary_search_exact T hT q i hi hq]

theorem find_index_below (T : List ℚ) (q : ℚ) (h0 : 0 < T.length)
    (hq : q < T[0]) : piecewise_linear_find_index q T = some 0 := by
  have hbs : binary_search q T = .error 0 := by
    refine binary_search_insert T q 0 (Nat.zero_le _) ?_ ?_
    · intro j hj hj0
      omega
    · intro _
      exact hq
  simp [piecewise_linear_find_index, hbs]

theorem find_index_error_branch (q : ℚ) (T : List ℚ) (u : ℕ)
    (hbs : binary_search q T = .error u) :
    piecewise_linear_find_index q T =
      (if u = 0 then some (u : ℚ)
       else
        match T[u]?, T[u - 1]? with
        | some upper_value, some lower_value =>
          some (((u - 1 : ℕ) : ℚ) +
            (q - lower_value) / (upper_value - lower_value))
        | _, _ => none) := by
  rw [piecewise_linear_find_index, hbs]

theorem find_index_interp (T : List ℚ) (hT : T.Pairwise (· < ·)) (q : ℚ)
    (u : ℕ) (hu : u < T.length) (hu0 : 0 < u)
    (hlow : T[u - 1] < q) (hhigh : q < T[u]) :
    piecewise_linear_find_index q T =
      some (((u - 1 : ℕ) : ℚ) + (q - T[u - 1]) / (T[u] - T[u - 1])) := by
  have hbs : binary_search q T = .error u := by
    refine binary_search_insert T q u (le_of_lt hu) ?_ ?_
    · intro j hj hju
      rcases Nat.lt_or_ge j (u - 1) with hj1 | hj1
      · exact lt_trans (sorted_getElem_lt hT hj (by omega) hj1) hlow
      · have : j = u - 1 := by omega
        subst this
        exact hlow
    · intro _
      exact hhigh
  rw [find_index_error_branch q T u hbs, if_neg (by omega),
    List.getElem?_eq_getElem hu,
    List.getElem?_eq_getElem (show u - 1 < T.length by omega)]

theorem find_index_above (T : List ℚ) (hT : T.Pairwise (· < ·)) (q : ℚ)
    (h0 : 0 < T.length) (hq : T[T.length - 1] < q) :
    binary_search q T = .error T.length ∧
      piecewise_linear_find_index q T = none := by
  have hbs : binary_search q T = .error T.length := by
    refine binary_search_insert T q T.length (le_refl _) ?_ ?_
    · intro j hj hju
      rcases Nat.lt_or_ge j (T.length - 1) with hj1 | hj1
      · exact lt_trans (sorted_getElem_lt hT hj (by omega) hj1) hq
      · have : j = T.length - 1 := by omega
        subst this
        exact hq
    · intro hu2
      omega
  refine ⟨hbs, ?_⟩
  rw [find_index_error_branch q T T.length hbs, if_neg (by omega),
    List.getElem?_eq_none (le_refl T.length),
    List.getElem?_eq_getElem (show T.length - 1 < T.length by omega)]

/- ## Claims about the scale mapper -/

/-- C5: for every strictly ascending table `T`, `piecewise_linear_find_index`
(the spec's `inverse`) returns exactly `i` when the query equals `T[i]`,
returns `0` when the query is below `T[0]`, and otherwise — with
`upper_index` the first position whose value is `≥` the query and
`lower_index = upper_index - 1` — returns
`lower_index + (query - T[lower_index]) / (T[upper_index] - T[lower_index])`. -/
theorem C5_inverse_characterization (T : List ℚ) (hT : T.Pairwise (· < ·)) :
    (∀ (q : ℚ) (i : ℕ) (hi : i < T.length), T[i] = q →
      piecewise_linear_find_index q T = some (i : ℚ)) ∧
    (∀ (q : ℚ) (h0 : 0 < T.length), q < T[0] →
      piecewise_linear_find_index q T = some 0) ∧
    (∀ (q : ℚ) (u : ℕ) (hu : u < T.length), 0 < u →
      T[u - 1] < q → q < T[u] →
      piecewise_linear_find_index q T =
        some (((u - 1 : ℕ) : ℚ) + (q - T[u - 1]) / (T[u] - T[u - 1]))) :=
  ⟨fun q i hi hq => find_index_exact T hT q i hi hq,
   fun q h0 hq => find_index_below T q h0 hq,
   fun q u hu hu0 hl hh => find_index_interp T hT q u hu hu0 hl hh⟩

/-- Witness for C5: on the strictly ascending table `[0, 1, 3]`, the query
`1/2` falls between indices 0 and 1 and interpolates to `1/2`. -/
theorem C5_inverse_characterization_witness :
    piecewise_linear_find_index (1/2) [(0 : ℚ), 1, 3] = some (1/2) := by
  have h := (C5_inverse_characterization [(0 : ℚ), 1, 3]
      (by norm_num)).2.2 (1/2) 1 (by norm_num) (by norm_num)
      (by norm_num) (by norm_num)
  norm_num at h
  exact h

/-- C7: for every ascending table `T` and every integer index
`i ∈ [0, len(T)-1]`, `piecewise_linear_lookup` (the spec's `forward`) at `i`
returns exactly `T[i]`, with no interpolation error. -/
theorem C7_forward_exact_at_integer_index (T : List ℚ)
    (_hT : T.Pairwise (· < ·)) (i : ℕ) (hi : i < T.length) :
    piecewise_linear_lookup (i : ℚ) T = some T[i] := by
  rw [piecewise_linear_lookup, Int.floor_natCast, Int.ceil_natCast,
    Int.toNat_natCast, List.getElem?_eq_getElem hi, Int.fract_natCast]
  show some (lerp T[i] T[i] 0) = some T[i]
  norm_num [lerp]

/-- Witness for C7: on the table `[5, 7]`, lookup at index 1 gives `7`. -/
theorem C7_forward_exact_at_integer_index_witness :
    piecewise_linear_lookup ((1 : ℕ) : ℚ) [(5 : ℚ), 7] = some 7 := by
  have h := C7_forward_exact_at_integer_index [(5 : ℚ), 7]
      (by norm_num) 1 (by norm_num)
  norm_num at h
  exact h

/-- C9: `piecewise_linear_find_index` is total only up to the table's last
element: for every non-empty strictly ascending table and every query
strictly above `T[len-1]`, the binary search's insertion point is `len(T)`
and the subsequent table indexing is out of bounds, so the embedding's
guarded indexing yields no value — queries above the maximum are not
clamped. -/
theorem C9_inverse_out_of_bounds_above_max (T : List ℚ)
    (hT : T.Pairwise (· < ·)) (q : ℚ) (h0 : 0 < T.length)
    (hq : T[T.length - 1] < q) :
    binary_search q T = .error T.length ∧
      piecewise_linear_find_index q T = none :=
  find_index_above T hT q h0 hq

/-- Witness for C9: on the table `[0, 1]`, the query `2` gives insertion
point 2 and no value. -/
theorem C9_inverse_out_of_bounds_above_max_witness :
    binary_search 2 [(0 : ℚ), 1] = .error 2 ∧
      piecewise_linear_find_index 2 [(0 : ℚ), 1] = none := by
  have h := C9_inverse_out_of_bounds_above_max [(0 : ℚ), 1]
      (by norm_num) 2 (by norm_num) (by norm_num)
  simpa using h

/-- C8: with the weight table `[-0.7, -0.5, -0.23, 0.0, 0.2, 0.3, 0.4, 0.6,
0.8]`, `css_to_core_text_font_weight` returns `-0.7` for CSS weight 100,
`0.1` for weight 450 (halfway between indices 3 and 4), and `0.8` for
weight 900. -/
theorem C8_weight_conversion_values :
    css_to_core_text_font_weight 100 = some (-(7/10)) ∧
    css_to_core_text_font_weight 450 = some (1/10) ∧
    css_to_core_text_font_weight 900 = some (4/5) := by
  refine ⟨?_, ?_, ?_⟩
  · have hidx : max (100 : ℚ) 100 / 100 - 1 = 0 := by norm_num
    rw [css_to_core_text_font_weight, hidx]
    have hfl : ⌊(0 : ℚ)⌋ = 0 := by norm_num
    have hcl : ⌈(0 : ℚ)⌉ = 0 := by norm_num
    have hfr : Int.fract (0 : ℚ) = 0 := by norm_num [Int.fract]
    rw [piecewise_linear_lookup, hfl, hcl, hfr]
    show (match some (-(7/10) : ℚ), some (-(7/10) : ℚ) with
      | some lower_value, some upper_value =>
        some (lerp lower_value upper_value 0)
      | _, _ => none) = some (-(7/10))
    norm_num [lerp]
  · have hidx : max (100 : ℚ) 450 / 100 - 1 = 7/2 := by
      rw [max_eq_right (by norm_num : (100 : ℚ) ≤ 450)]
      norm_num
    rw [css_to_core_text_font_weight, hidx]
    have hfl : ⌊(7/2 : ℚ)⌋ = 3 := by norm_num [Int.floor_eq_iff]
    have hcl : ⌈(7/2 : ℚ)⌉ = 4 := by norm_num [Int.ceil_eq_iff]
    have hfr : Int.fract (7/2 : ℚ) = 1/2 := by
      rw [Int.fract, hfl]
      norm_num
    rw [piecewise_linear_lookup, hfl, hcl, hfr]
    show (match some (0 : ℚ), some (1/5 : ℚ) with
      | some lower_value, some upper_value =>
        some (lerp lower_value upper_value (1/2))
      | _, _ => none) = some (1/10)
    norm_num [lerp]
  · have hidx : max (100 : ℚ) 900 / 100 - 1 = 8 := by
      rw [max_eq_right (by norm_num : (100 : ℚ) ≤ 900)]
      norm_num
    rw [css_to_core_text_font_weight, hidx]
    have hfl : ⌊(8 : ℚ)⌋ = 8 := by norm_num
    have hcl : ⌈(8 : ℚ)⌉ = 8 := by norm_num
    have hfr : Int.fract (8 : ℚ) = 0 := by norm_num [Int.fract]
    rw [piecewise_linear_lookup, hfl, hcl, hfr]
    show (match some (4/5 : ℚ), some (4/5 : ℚ) with
      | some lower_value, some upper_value =>
        some (lerp lower_value upper_value 0)
      | _, _ => none) = some (4/5)
    norm_num [lerp]

/-- C6: for every strictly ascending table `T` and every `x` in
`[0, len(T)-1]`, the inverse of the forward lookup recovers `x`: over the
exact rational arithmetic of this embedding the round trip
`inverse(forward(x, T), T) = x` holds exactly, which confirms the claimed
approximate inversion. -/
theorem C6_forward_inverse_round_trip (T : List ℚ) (hT : T.Pairwise (· < ·))
    (x : ℚ) (hx0 : 0 ≤ x) (hx1 : x ≤ (T.length : ℚ) - 1) :
    ∃ y, piecewise_linear_lookup x T = some y ∧
      piecewise_linear_find_index y T = some x := by
  have hlen : 0 < T.length := by
    rcases Nat.eq_zero_or_pos T.length with h | h
    · rw [h] at hx1
      norm_num at hx1
      linarith
    · exact h
  have hflnn : 0 ≤ ⌊x⌋ := Int.floor_nonneg.mpr hx0
  have hceil : ⌈x⌉ ≤ (T.length : ℤ) - 1 := by
    refine Int.ceil_le.mpr ?_
    push_cast
    exact hx1
  have hfc : ⌊x⌋ ≤ ⌈x⌉ := Int.floor_le_ceil x
  have hlo_lt : (⌊x⌋).toNat < T.length := by omega
  have hcast : (((⌊x⌋).toNat : ℕ) : ℚ) = (⌊x⌋ : ℚ) := by
    exact_mod_cast Int.toNat_of_nonneg hflnn
  by_cases hint : (⌊x⌋ : ℚ) = x
  · have hcf : ⌈x⌉ = ⌊x⌋ := by
      rw [← hint, Int.ceil_intCast, Int.floor_intCast]
    have hfr : Int.fract x = 0 := by
      rw [Int.fract, hint]
      ring
    have hlk1 : piecewise_linear_lookup x T =
        some (lerp T[(⌊x⌋).toNat] T[(⌊x⌋).toNat] (Int.fract x)) := by
      rw [piecewise_linear_lookup, hcf, List.getElem?_eq_getElem hlo_lt]
    refine ⟨_, hlk1, ?_⟩
    rw [hfr]
    have hlerp : lerp T[(⌊x⌋).toNat] T[(⌊x⌋).toNat] 0 = T[(⌊x⌋).toNat] := by
      simp [lerp]
    rw [hlerp, find_index_exact T hT T[(⌊x⌋).toNat] ((⌊x⌋).toNat) hlo_lt rfl]
    congr 1
    rw [hcast]
    exact hint
  · have hflt : (⌊x⌋ : ℚ) < x := lt_of_le_of_ne (Int.floor_le x) hint
    have hcf : ⌈x⌉ = ⌊x⌋ + 1 := by
      refine le_antisymm (Int.ceil_le_floor_add_one x) ?_
      have h1 : ⌊x⌋ < ⌈x⌉ := by
        have h2 : x ≤ (⌈x⌉ : ℚ) := Int.le_ceil x
        exact_mod_cast lt_of_lt_of_le hflt h2
      omega
    have hhi_eq : (⌈x⌉).toNat = (⌊x⌋).toNat + 1 := by omega
    have hlo1_lt : (⌊x⌋).toNat + 1 < T.length := by omega
    have hfr0 : 0 < Int.fract x := by
      rw [Int.fract]
      linarith
    have hfr1 : Int.fract x < 1 := Int.fract_lt_one x
    have hlk2 : piecewise_linear_lookup x T =
        some (lerp T[(⌊x⌋).toNat] T[(⌊x⌋).toNat + 1] (Int.fract x)) := by
      rw [piecewise_linear_lookup, hhi_eq, List.getElem?_eq_getElem hlo_lt,
        List.getElem?_eq_getElem hlo1_lt]
    set t := Int.fract x with ht
    set a := T[(⌊x⌋).toNat] with ha
    set b := T[(⌊x⌋).toNat + 1] with hb
    have hΔ : a < b := sorted_getElem_lt hT hlo_lt hlo1_lt (Nat.lt_succ_self _)
    have hy1 : a < lerp a b t := by
      rw [lerp]
      nlinarith
    have hy2 : lerp a b t < b := by
      rw [lerp]
      nlinarith
    refine ⟨_, hlk2, ?_⟩
    have hlow2 : T[(⌊x⌋).toNat + 1 - 1] < lerp a b t := by
      simp only [Nat.add_sub_cancel]
      exact hy1
    have hfi := find_index_interp T hT (lerp a b t) ((⌊x⌋).toNat + 1) hlo1_lt
      (Nat.succ_pos _) hlow2 hy2
    rw [hfi]
    congr 1
    simp only [Nat.add_sub_cancel]
    have hΔne : b - a ≠ 0 := sub_ne_zero.mpr (ne_of_gt hΔ)
    have hnum : lerp a b t - a = t * (b - a) := by
      rw [lerp]
      ring
    rw [hnum, mul_div_cancel_right₀ _ hΔne, hcast, ht, Int.fract]
    ring

/-- Witness for C6: on the table `[0, 2]`, forward at `x = 1/2` gives `1`
and the inverse of `1` recovers `1/2`. -/
theorem C6_forward_inverse_round_trip_witness :
    ∃ y, piecewise_linear_lookup (1/2) [(0 : ℚ), 2] = some y ∧
      piecewise_linear_find_index y [(0 : ℚ), 2] = some (1/2) := by
  have h := C6_forward_inverse_round_trip [(0 : ℚ), 2] (by norm_num) (1/2)
    (by norm_num) (by norm_num)
  simpa using h

/-- C10: `css_to_core_text_font_weight` clamps only on the low side — every
CSS weight `w ≤ 100` maps to `-0.7` (the first table entry) and the function
yields a value for every `w ≤ 900` — while for every `w > 900` the fractional
index exceeds 8 and the table lookup indexes out of bounds (the guarded
indexing yields no value): high weights are not clamped. -/
theorem C10_weight_low_clamp_high_oob :
    (∀ w : ℚ, w ≤ 100 → css_to_core_text_font_weight w = some (-(7/10))) ∧
    (∀ w : ℚ, w ≤ 900 → (css_to_core_text_font_weight w).isSome = true) ∧
    (∀ w : ℚ, 900 < w → css_to_core_text_font_weight w = none) := by
  refine ⟨?_, ?_, ?_⟩
  · intro w hw
    have hidx : max (100 : ℚ) w / 100 - 1 = 0 := by
      rw [max_eq_left hw]
      norm_num
    rw [css_to_core_text_font_weight, hidx]
    have hfl : ⌊(0 : ℚ)⌋ = 0 := by norm_num
    have hcl : ⌈(0 : ℚ)⌉ = 0 := by norm_num
    have hfr : Int.fract (0 : ℚ) = 0 := by norm_num [Int.fract]
    rw [piecewise_linear_lookup, hfl, hcl, hfr]
    show (match some (-(7/10) : ℚ), some (-(7/10) : ℚ) with
      | some lower_value, some upper_value =>
        some (lerp lower_value upper_value 0)
      | _, _ => none) = some (-(7/10))
    norm_num [lerp]
  · intro w hw
    set idx := max (100 : ℚ) w / 100 - 1 with hidx
    have h100 : (100 : ℚ) ≤ max 100 w := le_max_left _ _
    have h900 : max (100 : ℚ) w ≤ 900 := max_le (by norm_num) hw
    have hidx0 : 0 ≤ idx := by
      rw [hidx]
      have : (1 : ℚ) ≤ max 100 w / 100 :=
        (le_div_iff₀ (by norm_num : (0 : ℚ) < 100)).mpr (by linarith)
      linarith
    have hidx8 : idx ≤ 8 := by
      rw [hidx]
      have : max (100 : ℚ) w / 100 ≤ 9 :=
        (div_le_iff₀ (by norm_num : (0 : ℚ) < 100)).mpr (by linarith)
      linarith
    have hlen : FONT_WEIGHT_MAPPING.length = 9 := rfl
    have hfl_lt : (⌊idx⌋).toNat < FONT_WEIGHT_MAPPING.length := by
      have h1 : ⌊idx⌋ < 9 := Int.floor_lt.mpr (by exact_mod_cast by linarith)
      omega
    have hcl_lt : (⌈idx⌉).toNat < FONT_WEIGHT_MAPPING.length := by
      have h1 : ⌈idx⌉ ≤ 8 := Int.ceil_le.mpr (by exact_mod_cast hidx8)
      omega
    rw [css_to_core_text_font_weight, ← hidx, piecewise_linear_lookup,
      List.getElem?_eq_getElem hfl_lt, List.getElem?_eq_getElem hcl_lt]
    rfl
  · intro w hw
    have hmax : max (100 : ℚ) w = w := max_eq_right (by linarith)
    have hidx8 : (8 : ℚ) < max 100 w / 100 - 1 := by
      rw [hmax]
      have : (9 : ℚ) < w / 100 :=
        (lt_div_iff₀ (by norm_num : (0 : ℚ) < 100)).mpr (by linarith)
      linarith
    have h8 : (8 : ℤ) < ⌈max (100 : ℚ) w / 100 - 1⌉ :=
      Int.lt_ceil.mpr (by exact_mod_cast hidx8)
    have hnone :
        FONT_WEIGHT_MAPPING[(⌈max (100 : ℚ) w / 100 - 1⌉).toNat]? = none := by
      apply List.getElem?_eq_none
      have hlen : FONT_WEIGHT_MAPPING.length = 9 := rfl
      omega
    rw [css_to_core_text_font_weight, piecewise_linear_lookup, hnone]
    cases FONT_WEIGHT_MAPPING[(⌊max (100 : ℚ) w / 100 - 1⌋).toNat]? <;> rfl

/-- Witness for C10: weight 50 clamps to `-0.7`, weight 450 yields a value,
weight 1000 yields none. -/
theorem C10_weight_low_clamp_high_oob_witness :
    css_to_core_text_font_weight 50 = some (-(7/10)) ∧
    (css_to_core_text_font_weight 450).isSome = true ∧
    css_to_core_text_font_weight 1000 = none :=
  ⟨C10_weight_low_clamp_high_oob.1 50 (by norm_num),
   C10_weight_low_clamp_high_oob.2.1 450 (by norm_num),
   C10_weight_low_clamp_high_oob.2.2 1000 (by norm_num)⟩

/- ## Lemmas about the matching engine -/

theorem describe_fonts_ok {H P : Type} (s : Source H P) :
    ∀ (hs : List H) (ds : List (Description P)),
      describe_fonts s hs = some ds →
      ds.length = hs.length ∧
        ∀ (i : ℕ) (hi : i < hs.length) (hd : i < ds.length),
          ∃ f, s.from_handle hs[i] = some f ∧
            ds[i] = { family_name := f.family_name,
                      properties := f.properties } := by
  intro hs
  induction hs with
  | nil =>
    intro ds hdf
    simp only [describe_fonts, Option.some.injEq] at hdf
    subst hdf
    simp
  | cons head rest ih =>
    intro ds hdf
    simp only [describe_fonts] at hdf
    cases hfh : s.from_handle head with
    | none =>
      rw [hfh] at hdf
      simp at hdf
    | some f =>
      rw [hfh] at hdf
      cases hdr : describe_fonts s rest with
      | none =>
        rw [hdr] at hdf
        simp at hdf
      | some fields =>
        rw [hdr] at hdf
        simp only [Option.some.injEq] at hdf
        subst hdf
        rcases ih fields hdr with ⟨hlen, hidx⟩
        constructor
        · simp [hlen]
        · intro i hi hd
          cases i with
          | zero =>
            exact ⟨f, by simpa using hfh, by simp⟩
          | succ j =>
            have hj : j < rest.length := by simpa using hi
            have hjd : j < fields.length := by simpa using hd
            rcases hidx j hj hjd with ⟨g, hg1, hg2⟩
            exact ⟨g, by simpa using hg1, by simpa using hg2⟩

theorem describe_fonts_none {H P : Type} (s : Source H P) :
    ∀ hs : List H, (∃ h ∈ hs, s.from_handle h = none) →
      describe_fonts s hs = none := by
  intro hs
  induction hs with
  | nil =>
    intro hex
    simp at hex
  | cons head rest ih =>
    intro hex
    rcases hex with ⟨h, hmem, hnone⟩
    rcases List.mem_cons.mp hmem with heq | hmem2
    · subst heq
      simp only [describe_fonts, hnone]
    · have := ih ⟨h, hmem2, hnone⟩
      simp only [describe_fonts, this]
      cases s.from_handle head <;> rfl

theorem search_families_spec {H P : Type} (s : Source H P) (q : String) :
    ∀ families : List String,
      search_families s q families =
        match find_in_family (candidate_pairs s families) q with
        | some h => .ok h
        | none => .error .NotFound := by
  intro families
  induction families with
  | nil => rfl
  | cons name rest ih =>
    cases hres : s.select_family_by_name name with
    | error e =>
      have hcp : candidate_pairs s (name :: rest) = candidate_pairs s rest := by
        simp only [candidate_pairs, List.flatMap_cons, hres, List.nil_append]
      rw [search_families, hres, hcp]
      exact ih
    | ok family_handle =>
      cases hld : Family.from_handle s family_handle with
      | none =>
        have hcp : candidate_pairs s (name :: rest) =
            candidate_pairs s rest := by
          simp only [candidate_pairs, List.flatMap_cons, hres, hld,
            List.nil_append]
        simp only [search_families, hres, hld, hcp]
        exact ih
      | some fonts =>
        have hcp : candidate_pairs s (name :: rest) =
            family_handle.fonts.zip fonts ++ candidate_pairs s rest := by
          simp only [candidate_pairs, List.flatMap_cons, hres, hld]
        simp only [search_families, hres, hld, hcp, find_in_family,
          List.find?_append]
        simp only [find_in_family] at ih
        cases hf : List.find? (fun p => p.2.postscript_name == q)
            (family_handle.fonts.zip fonts) with
        | some pair =>
          simp [Option.or]
        | none =>
          simp only [Option.none_or]
          cases hg : Option.map Prod.fst
              (List.find? (fun p => p.2.postscript_name == q)
                (candidate_pairs s rest)) with
          | some h2 =>
            rw [hg] at ih
            simpa using ih
          | none =>
            rw [hg] at ih
            simpa using ih

/- ## Claims about the matching engine -/

/-- C1: `select_best_match` iterates the preference list in the given
order — the empty list yields `NotFound`; a preference whose family fails to
resolve is skipped; when a preference resolves, the descriptor set is built
and the property-matching policy consulted: a policy index makes the call
return that family's handle at that index immediately, independently of any
later preference, while a policy failure moves to the next preference; and
when every preference is exhausted without a result the call returns
`NotFound`. -/
theorem C1_select_best_match_first_match_wins {H P : Type} (s : Source H P)
    (p : P) :
    (select_best_match s p [] = some (.error .NotFound)) ∧
    (∀ (fn : FamilyName) (rest : List FamilyName) (e : SelectionError),
      select_family_by_generic_name s fn = .error e →
      select_best_match s p (fn :: rest) = select_best_match s p rest) ∧
    (∀ (fn : FamilyName) (rest : List FamilyName) (fh : FamilyHandle H)
      (candidates : List (Description P)) (i : ℕ) (h : H),
      select_family_by_generic_name s fn = .ok fh →
      select_descriptions_in_family s fh = some (.ok candidates) →
      s.find_best_match candidates p = .ok i →
      fh.fonts[i]? = some h →
      select_best_match s p (fn :: rest) = some (.ok h)) ∧
    (∀ (fn : FamilyName) (rest : List FamilyName) (fh : FamilyHandle H)
      (candidates : List (Description P)) (e : SelectionError),
      select_family_by_generic_name s fn = .ok fh →
      select_descriptions_in_family s fh = some (.ok candidates) →
      s.find_best_match candidates p = .error e →
      select_best_match s p (fn :: rest) = select_best_match s p rest) ∧
    (∀ prefs : List FamilyName,
      (∀ fn ∈ prefs,
        (∃ e, select_family_by_generic_name s fn = .error e) ∨
        (∃ fh candidates e,
          select_family_by_generic_name s fn = .ok fh ∧
          select_descriptions_in_family s fh = some (.ok candidates) ∧
          s.find_best_match candidates p = .error e)) →
      select_best_match s p prefs = some (.error .NotFound)) := by
  refine ⟨rfl, ?_, ?_, ?_, ?_⟩
  · intro fn rest e h
    simp only [select_best_match, h]
  · intro fn rest fh candidates i h h1 h2 h3 h4
    simp only [select_best_match, h1, h2, h3, h4]
  · intro fn rest fh candidates e h1 h2 h3
    simp only [select_best_match, h1, h2, h3]
  · intro prefs
    induction prefs with
    | nil =>
      intro _
      rfl
    | cons fn rest ih =>
      intro hall
      have hrest := ih (fun g hg => hall g (List.mem_cons_of_mem fn hg))
      rcases hall fn (List.mem_cons_self fn rest) with ⟨e, he⟩ |
        ⟨fh, candidates, e, h1, h2, h3⟩
      · rw [← hrest]
        simp only [select_best_match, he]
      · rw [← hrest]
        simp only [select_best_match, h1, h2, h3]

/-- C2 (amended): `select_descriptions_in_family` never produces an error
value; when every identifier of the family loads, it returns a descriptor
sequence of the same length and order as the family's identifier sequence
(the i-th descriptor describes the i-th identifier); and when describing any
identifier fails, the call panics — the `.unwrap()` in the source, modelled
as `none` — rather than returning `IoFailure` or a partial sequence. -/
theorem C2_descriptions_same_order_panic_on_failure {H P : Type}
    (s : Source H P) (family : FamilyHandle H) :
    (∀ e : SelectionError,
      select_descriptions_in_family s family ≠ some (.error e)) ∧
    (∀ ds, select_descriptions_in_family s family = some (.ok ds) →
      ds.length = family.fonts.length ∧
        ∀ (i : ℕ) (hi : i < family.fonts.length) (hd : i < ds.length),
          ∃ f, s.from_handle family.fonts[i] = some f ∧
            ds[i] = { family_name := f.family_name,
                      properties := f.properties }) ∧
    ((∃ h ∈ family.fonts, s.from_handle h = none) →
      select_descriptions_in_family s family = none) := by
  refine ⟨?_, ?_, ?_⟩
  · intro e
    cases hdf : describe_fonts s family.fonts <;>
      simp [select_descriptions_in_family, hdf]
  · intro ds hds
    cases hdf : describe_fonts s family.fonts with
    | none =>
      rw [select_descriptions_in_family, hdf] at hds
      simp at hds
    | some ds2 =>
      rw [select_descriptions_in_family, hdf] at hds
      have h2 : ds2 = ds := Except.ok.inj (Option.some.inj hds)
      exact h2 ▸ describe_fonts_ok s family.fonts ds2 hdf
  · intro hex
    rw [select_descriptions_in_family, describe_fonts_none s family.fonts hex]
    rfl

/-- C3 (amended): in `select_best_match` every error from resolving a
preference's family — `IoFailure` just as `NotFound` — is absorbed by the
`if let Ok(…)` and the search continues with the next preference; resolution
failures are never surfaced to the caller. -/
theorem C3_resolution_errors_absorbed {H P : Type} (s : Source H P) (p : P)
    (fn : FamilyName) (rest : List FamilyName) (e : SelectionError)
    (h : select_family_by_generic_name s fn = .error e) :
    select_best_match s p (fn :: rest) = select_best_match s p rest := by
  simp only [select_best_match, h]

/-- C4: with `all_families` succeeding, the brute-force
`select_by_postscript_name` returns the first resource — in family order,
then in-family order, with families that fail to resolve or load skipped —
whose PostScript name equals the query, and `NotFound` when no resource of
any family matches. -/
theorem C4_postscript_brute_force_first_match {H P : Type} (s : Source H P)
    (families : List String) (q : String)
    (hall : s.all_families = .ok families) :
    select_by_postscript_name s q =
      match find_in_family (candidate_pairs s families) q with
      | some h => .ok h
      | none => .error .NotFound := by
  rw [select_by_postscript_name, hall]
  exact search_families_spec s q families

/-- Witness for C1: on the concrete catalog, the single preference "B"
resolves, the policy picks index 0, and the call returns handle `7`. -/
theorem C1_select_best_match_first_match_wins_witness :
    select_best_match srcW () [.Title "B"] = some (.ok 7) :=
  (C1_select_best_match_first_match_wins srcW ()).2.2.1 (.Title "B") []
    ⟨[7]⟩ [{ family_name := "B", properties := () }] 0 7 rfl rfl rfl rfl

/-- Counterexample for C2 as stated: with a catalog whose font loading
fails, describing the one-handle family `[0]` panics (the embedding yields
no value) — it does not return `IoFailure`. -/
theorem C2_counterexample_panic_not_io_failure :
    srcF.from_handle 0 = none ∧
    select_descriptions_in_family srcF ⟨[0]⟩ = none ∧
    select_descriptions_in_family srcF ⟨[0]⟩ ≠ some (.error .IoFailure) := by
  refine ⟨rfl, rfl, ?_⟩
  intro h
  simp [select_descriptions_in_family, describe_fonts, srcF] at h

/-- Witness for C2 (amended): the failing catalog panics on family `[0]`,
and on the working catalog the descriptors of family `[7]` have the same
length as the identifier sequence. -/
theorem C2_descriptions_same_order_panic_on_failure_witness :
    select_descriptions_in_family srcF ⟨[0]⟩ = none ∧
    ([{ family_name := "B", properties := () }] : List (Description Unit)).length =
      (FamilyHandle.mk [7] : FamilyHandle Nat).fonts.length :=
  ⟨(C2_descriptions_same_order_panic_on_failure srcF ⟨[0]⟩).2.2
      ⟨0, by simp, rfl⟩,
   ((C2_descriptions_same_order_panic_on_failure srcW ⟨[7]⟩).2.1
      [{ family_name := "B", properties := () }] rfl).1⟩

/-- Counterexample for C3 as stated: resolving preference "A" fails with
`IoFailure`, yet `select_best_match` does not surface that failure — it
continues with preference "B" and returns its match. -/
theorem C3_counterexample_io_failure_not_surfaced :
    select_family_by_generic_name srcW (.Title "A") = .error .IoFailure ∧
    select_best_match srcW () [.Title "A", .Title "B"] = some (.ok 7) :=
  ⟨rfl, rfl⟩

/-- Witness for C3 (amended): the `IoFailure` on preference "A" is absorbed
and the search proceeds exactly as if "A" were absent. -/
theorem C3_resolution_errors_absorbed_witness :
    select_best_match srcW () [.Title "A", .Title "B"] =
      select_best_match srcW () [.Title "B"] :=
  C3_resolution_errors_absorbed srcW () (.Title "A") [.Title "B"]
    .IoFailure rfl

/-- Witness for C4: family "A" fails to resolve and is skipped; the search
finds PostScript name "B-Reg" in family "B" and returns handle `7`. -/
theorem C4_postscript_brute_force_first_match_witness :
    select_by_postscript_name srcW "B-Reg" = .ok 7 := by
  have h := C4_postscript_brute_force_first_match srcW ["A", "B"] "B-Reg" rfl
  simpa using h

end FontKit
